import Mathlib

/-!
Verification of the statistical insight-generation pipeline of
GenAIAdoptionPulse (`backend/services/insights_engine.py`).

Python floats are modelled as exact rationals (`ℚ`) where the code only
uses field arithmetic, and as real numbers (`ℝ`) where the code takes
square roots (Pearson correlation).  Python's `round(x, 3)` (banker's
rounding, half to even) is modelled by `roundHalfEven`/`pyRound3`.
Python dicts keyed by strings are modelled as association lists in
insertion order; `max(d, key=d.get)` / `min(d, key=d.get)` return the
first extremal key, modelled by `pyMaxBy` / `pyMinBy`.
-/

namespace Pulse

/-- Python's `round` to an integer: round half to even.  `round x` in
Mathlib rounds half up, so ties `x = ⌊x⌋ + 1/2` are redirected to the even
neighbour of `⌊x⌋`. -/
def roundHalfEven {K : Type} [LinearOrderedField K] [FloorRing K] [DecidableEq K]
    (x : K) : ℤ :=
  if x - ⌊x⌋ = 1/2 then (if ⌊x⌋ % 2 = 0 then ⌊x⌋ else ⌊x⌋ + 1) else round x

/-- Python's `round(x, 3)`: scale by 1000, round half to even, unscale. -/
def pyRound3 {K : Type} [LinearOrderedField K] [FloorRing K] [DecidableEq K]
    (x : K) : K :=
  (roundHalfEven (x * 1000) : K) / 1000

theorem round_mono_of_le {K : Type} [LinearOrderedField K] [FloorRing K]
    {x y : K} (h : x ≤ y) : round x ≤ round y := by
  rw [round_eq, round_eq]
  exact Int.floor_mono (by linarith)

theorem roundHalfEven_le_round {K : Type} [LinearOrderedField K] [FloorRing K]
    [DecidableEq K] (x : K) : roundHalfEven x ≤ round x := by
  unfold roundHalfEven
  split
  · next htie =>
    have hround : round x = ⌊x⌋ + 1 := by
      have hx : x + 1/2 = ((⌊x⌋ + 1 : ℤ) : K) := by push_cast; linarith
      rw [round_eq, hx, Int.floor_intCast]
    split
    · omega
    · omega
  · exact le_refl _

theorem roundHalfEven_mono {K : Type} [LinearOrderedField K] [FloorRing K]
    [DecidableEq K] {x y : K} (h : x ≤ y) :
    roundHalfEven x ≤ roundHalfEven y := by
  rcases eq_or_lt_of_le h with rfl | hlt
  · exact le_refl _
  by_cases hy : y - ⌊y⌋ = 1/2 ∧ ⌊y⌋ % 2 = 0
  · -- `y` is an even tie: `roundHalfEven y = ⌊y⌋`, and `x < y` forces
    -- `⌊x + 1/2⌋ ≤ ⌊y⌋`.
    have hyv : roundHalfEven y = ⌊y⌋ := by
      unfold roundHalfEven
      rw [if_pos hy.1, if_pos hy.2]
    have h1 : x + 1/2 < ((⌊y⌋ + 1 : ℤ) : K) := by push_cast; linarith [hy.1, hlt]
    have h2 : ⌊x + 1/2⌋ < ⌊y⌋ + 1 := Int.floor_lt.mpr h1
    calc roundHalfEven x ≤ round x := roundHalfEven_le_round x
      _ = ⌊x + 1/2⌋ := round_eq x
      _ ≤ ⌊y⌋ := by omega
      _ = roundHalfEven y := hyv.symm
  · -- otherwise `roundHalfEven y = round y`.
    have hyv : roundHalfEven y = round y := by
      unfold roundHalfEven
      split
      · next htie =>
        have hodd : ¬ ⌊y⌋ % 2 = 0 := fun hc => hy ⟨htie, hc⟩
        rw [if_neg hodd]
        have hyc : y + 1/2 = ((⌊y⌋ + 1 : ℤ) : K) := by push_cast; linarith
        rw [round_eq, hyc, Int.floor_intCast]
      · rfl
    calc roundHalfEven x ≤ round x := roundHalfEven_le_round x
      _ ≤ round y := round_mono_of_le (le_of_lt hlt)
      _ = roundHalfEven y := hyv.symm

theorem roundHalfEven_intCast {K : Type} [LinearOrderedField K] [FloorRing K]
    [DecidableEq K] (n : ℤ) : roundHalfEven ((n : K)) = n := by
  unfold roundHalfEven
  rw [Int.floor_intCast]
  rw [if_neg (by simp)]
  exact round_intCast n

theorem roundHalfEven_le_intCast {K : Type} [LinearOrderedField K] [FloorRing K]
    [DecidableEq K] {x : K} {n : ℤ} (h : x ≤ (n : K)) : roundHalfEven x ≤ n := by
  calc roundHalfEven x ≤ roundHalfEven ((n : K)) := roundHalfEven_mono h
    _ = n := roundHalfEven_intCast n

theorem intCast_le_roundHalfEven {K : Type} [LinearOrderedField K] [FloorRing K]
    [DecidableEq K] {x : K} {n : ℤ} (h : (n : K) ≤ x) : n ≤ roundHalfEven x := by
  calc n = roundHalfEven ((n : K)) := (roundHalfEven_intCast n).symm
    _ ≤ roundHalfEven x := roundHalfEven_mono h

theorem pyRound3_mono {K : Type} [LinearOrderedField K] [FloorRing K]
    [DecidableEq K] {x y : K} (h : x ≤ y) : pyRound3 x ≤ pyRound3 y := by
  unfold pyRound3
  have : roundHalfEven (x * 1000) ≤ roundHalfEven (y * 1000) :=
    roundHalfEven_mono (by linarith)
  have hc : ((roundHalfEven (x * 1000) : K)) ≤ ((roundHalfEven (y * 1000) : K)) := by
    exact_mod_cast this
  linarith

theorem pyRound3_le_of_le {K : Type} [LinearOrderedField K] [FloorRing K]
    [DecidableEq K] {x : K} {n : ℤ} (h : x ≤ (n : K) / 1000) :
    pyRound3 x ≤ (n : K) / 1000 := by
  unfold pyRound3
  have h1 : x * 1000 ≤ (n : K) := by linarith
  have h2 : roundHalfEven (x * 1000) ≤ n := roundHalfEven_le_intCast h1
  have hc : ((roundHalfEven (x * 1000) : K)) ≤ ((n : K)) := by exact_mod_cast h2
  linarith

theorem pyRound3_intCast {K : Type} [LinearOrderedField K] [FloorRing K]
    [DecidableEq K] (n : ℤ) : pyRound3 ((n : K)) = (n : K) := by
  unfold pyRound3
  rw [show ((n : K) * 1000) = ((n * 1000 : ℤ) : K) by push_cast; ring]
  rw [roundHalfEven_intCast]
  push_cast
  field_simp

/-- A validated GenAI adoption row (`models/csv_models.py`,
`GenAIAdoptionRecord`).  The industry enum value is modelled by its string
value (`record.industry.value`). -/
structure GenAIAdoptionRecord where
  industry : String
  year : ℤ
  adoption_rate : ℚ
  use_cases_count : ℕ
  investment_millions : ℚ
deriving DecidableEq, Repr

/-- A validated AWS usage row (`models/csv_models.py`, `AWSUsageRecord`). -/
structure AWSUsageRecord where
  industry : String
  year : ℤ
  bedrock_usage : ℚ
  sagemaker_usage : ℚ
  lambda_usage : ℚ
  s3_usage : ℚ
  ec2_usage : ℚ
deriving DecidableEq, Repr

/-- The year test of `InsightsEngine._apply_filters` (lines 133-135).
Python's `if years and record.year not in years` skips a record exactly when
the `years` argument is truthy (not `None` and not the empty list) and the
year is absent, so a record is kept when `years` is `None`, is `[]`, or
contains the year. -/
def keepYears (years : Option (List ℤ)) (y : ℤ) : Bool :=
  match years with
  | none => true
  | some ys => ys.isEmpty || ys.contains y

/-- The industry test of `InsightsEngine._apply_filters` (lines 137-139),
with the same truthiness semantics as `keepYears`. -/
def keepIndustries (industries : Option (List String)) (ind : String) : Bool :=
  match industries with
  | none => true
  | some inds => inds.isEmpty || inds.contains ind

/-- `InsightsEngine._apply_filters` (lines 124-143): keep, in order, the
records passing both the year and the industry test.  The Python code is
generic over the record type (it only reads `.year` and `.industry.value`),
modelled here by the two accessor arguments. -/
def apply_filters {α : Type} (year : α → ℤ) (industry : α → String)
    (records : List α) (years : Option (List ℤ)) (industries : Option (List String)) :
    List α :=
  records.filter fun r => keepYears years (year r) && keepIndustries industries (industry r)

/-- Modelled from the spec: the year test as the claim words it — the year
must belong to the given year list, unless no year list was given.  Unlike
`keepYears`, a given-but-empty list admits nothing. -/
def keepYearsSpec (years : Option (List ℤ)) (y : ℤ) : Bool :=
  match years with
  | none => true
  | some ys => ys.contains y

/-- Modelled from the spec: the industry test as the claim words it. -/
def keepIndustriesSpec (industries : Option (List String)) (ind : String) : Bool :=
  match industries with
  | none => true
  | some inds => inds.contains ind

/-- Modelled from the spec: the filter operation as the claim words it. -/
def apply_filters_spec {α : Type} (year : α → ℤ) (industry : α → String)
    (records : List α) (years : Option (List ℤ)) (industries : Option (List String)) :
    List α :=
  records.filter fun r =>
    keepYearsSpec years (year r) && keepIndustriesSpec industries (industry r)

/-- `InsightsEngine._calculate_confidence` (lines 207-211):
`round(min(0.95, (1 - p) * (n / 100) * (1 + |d| / 2)), 3)`. -/
def calculate_confidence (p : ℚ) (n : ℕ) (d : ℚ) : ℚ :=
  let effect_size_multiplier : ℚ := 1 + |d| / 2
  let confidence : ℚ := min 0.95 ((1 - p) * ((n : ℚ) / 100) * effect_size_multiplier)
  pyRound3 confidence

/-- The composite cloud-usage score of
`InsightsEngine._generate_correlation_insights` (lines 308-312):
`bedrock*0.3 + sagemaker*0.3 + lambda*0.2 + s3*0.1 + ec2*0.1`.  The code
applies no rounding to this sum. -/
def aws_score (r : AWSUsageRecord) : ℚ :=
  r.bedrock_usage * 0.3 + r.sagemaker_usage * 0.3 + r.lambda_usage * 0.2 +
    r.s3_usage * 0.1 + r.ec2_usage * 0.1

/-- Python's `statistics.mean` (total version; the engine only calls it on
non-empty lists). -/
noncomputable def mean (xs : List ℝ) : ℝ := xs.sum / xs.length

/-- The sum of squared deviations `sum((x - mean_x) ** 2 for x in x_values)`
of `_calculate_pearson_correlation` (lines 157-158). -/
noncomputable def sumSqDev (xs : List ℝ) : ℝ :=
  (xs.map (fun a => (a - mean xs)^2)).sum

/-- The numerator `sum((x - mean_x) * (y - mean_y) for x, y in zip(...))`
of `_calculate_pearson_correlation` (line 156). -/
noncomputable def covSum (x y : List ℝ) : ℝ :=
  ((x.zip y).map (fun p => (p.1 - mean x) * (p.2 - mean y))).sum

/-- The approximate two-tailed p-value of `_calculate_pearson_correlation`
(lines 167-180), as a function of the unrounded correlation and the sample
size: `0.001` when `|r| >= 0.999`, otherwise the four-bucket mapping on
`t = |r| * ((n - 2) / (1 - r**2)) ** 0.5`.  Python's `** 0.5` on the
non-negative argument is square root. -/
noncomputable def approx_p (r : ℝ) (n : ℕ) : ℝ :=
  if 0.999 ≤ |r| then 0.001
  else
    let t_stat := |r| * Real.sqrt (((n : ℝ) - 2) / (1 - r^2))
    if 2.576 < t_stat then 0.01
    else if 1.96 < t_stat then 0.05
    else if 1.645 < t_stat then 0.10
    else 0.20

/-- `InsightsEngine._calculate_pearson_correlation` (lines 145-182).
Returns `(round(correlation, 3), p_value, n)`; `(0.0, 1.0, 0)` for unequal
lengths or fewer than 2 points, and `(0.0, 1.0, n)` when the denominator
`(sum_sq_x * sum_sq_y) ** 0.5` is zero. -/
noncomputable def calculate_pearson_correlation (x_values y_values : List ℝ) :
    ℝ × ℝ × ℕ :=
  if x_values.length ≠ y_values.length ∨ x_values.length < 2 then (0, 1, 0)
  else
    let n := x_values.length
    let numerator := covSum x_values y_values
    let denominator := Real.sqrt (sumSqDev x_values * sumSqDev y_values)
    if denominator = 0 then (0, 1, n)
    else
      let correlation := numerator / denominator
      (pyRound3 correlation, approx_p correlation n, n)

theorem sum_sq_nonneg (l : List ℝ) : 0 ≤ (l.map (fun a => a^2)).sum := by
  apply List.sum_nonneg
  intro z hz
  simp only [List.mem_map] at hz
  obtain ⟨w, _, rfl⟩ := hz
  positivity

theorem sumSqDev_nonneg (xs : List ℝ) : 0 ≤ sumSqDev xs := by
  apply List.sum_nonneg
  intro z hz
  simp only [List.mem_map] at hz
  obtain ⟨w, _, rfl⟩ := hz
  positivity

/-- Cauchy-Schwarz for the pointwise product of two lists. -/
theorem list_inner_sq_le (x y : List ℝ) :
    (((x.zip y).map (fun p => p.1 * p.2)).sum)^2 ≤
      (x.map (fun a => a^2)).sum * (y.map (fun b => b^2)).sum := by
  induction x generalizing y with
  | nil => simp
  | cons a xs ih =>
    cases y with
    | nil => simp
    | cons b ys =>
      simp only [List.zip_cons_cons, List.map_cons, List.sum_cons]
      have hX := sum_sq_nonneg xs
      have hY := sum_sq_nonneg ys
      have ihs := ih ys
      set S := ((xs.zip ys).map (fun p => p.1 * p.2)).sum with hS
      set X := (xs.map (fun a => a^2)).sum with hXd
      set Y := (ys.map (fun b => b^2)).sum with hYd
      rcases eq_or_lt_of_le hY with hY0 | hYpos
      · have hS2 : S^2 ≤ 0 := by
          calc S^2 ≤ X * Y := ihs
            _ = 0 := by rw [← hY0, mul_zero]
        have hS0 : S = 0 := by
          have := sq_nonneg S
          have : S^2 = 0 := le_antisymm hS2 this
          exact pow_eq_zero_iff (by norm_num) |>.mp this
        rw [hS0, ← hY0]
        nlinarith [mul_nonneg hX (sq_nonneg b)]
      · nlinarith [sq_nonneg (a * Y - b * S), mul_nonneg (le_of_lt hYpos) (sub_nonneg.mpr ihs),
          mul_nonneg (sq_nonneg b) (sub_nonneg.mpr ihs)]

theorem covSum_sq_le (x y : List ℝ) :
    (covSum x y)^2 ≤ sumSqDev x * sumSqDev y := by
  have h := list_inner_sq_le (x.map (fun a => a - mean x)) (y.map (fun b => b - mean y))
  rw [List.zip_map, List.map_map, List.map_map, List.map_map] at h
  simpa [covSum, sumSqDev, Function.comp] using h

theorem covSum_comm_aux (x : List ℝ) :
    ∀ (y : List ℝ) (a b : ℝ),
      ((x.zip y).map (fun p => (p.1 - a) * (p.2 - b))).sum =
        ((y.zip x).map (fun p => (p.1 - b) * (p.2 - a))).sum := by
  induction x with
  | nil => intro y a b; simp
  | cons u us ih =>
    intro y a b
    cases y with
    | nil => simp
    | cons v vs =>
      simp only [List.zip_cons_cons, List.map_cons, List.sum_cons, ih vs a b]
      ring

theorem covSum_comm (x y : List ℝ) : covSum x y = covSum y x :=
  covSum_comm_aux x y (mean x) (mean y)

theorem covSum_self (x : List ℝ) : covSum x x = sumSqDev x := by
  unfold covSum sumSqDev
  generalize mean x = m
  induction x with
  | nil => simp
  | cons a as ih =>
    simp only [List.zip_cons_cons, List.map_cons, List.sum_cons, ih]
    ring_nf

theorem sumSqDev_eq_zero_of_const {x : List ℝ} {c : ℝ} (h : ∀ a ∈ x, a = c) :
    sumSqDev x = 0 := by
  rcases List.eq_nil_or_concat x with rfl | _
  · simp [sumSqDev]
  · have hrep : x = List.replicate x.length c := List.eq_replicate_of_mem h
    apply List.sum_eq_zero
    intro z hz
    simp only [List.mem_map] at hz
    obtain ⟨w, hw, rfl⟩ := hz
    have hwc : w = c := h w hw
    rcases Nat.eq_zero_or_pos x.length with h0 | hpos
    · exact absurd (List.length_pos_of_mem hw) (by omega)
    have hmean : mean x = c := by
      unfold mean
      rw [hrep, List.sum_replicate, List.length_replicate, nsmul_eq_mul]
      field_simp
    rw [hwc, hmean]
    ring

/-- Python's `statistics.mean` on rationals (total version; only applied to
non-empty lists by the engine). -/
def meanQ (l : List ℚ) : ℚ := l.sum / l.length

/-- Insertion step of an ascending insertion sort on integers. -/
def insertAsc (y : ℤ) : List ℤ → List ℤ
  | [] => [y]
  | a :: t => if y ≤ a then y :: a :: t else a :: insertAsc y t

/-- Python's `sorted` on a list of integers, as an insertion sort. -/
def sortAsc (l : List ℤ) : List ℤ := l.foldr insertAsc []

/-- The keys of a Python dict built by insertion, i.e. the distinct values
in order of first appearance. -/
def firstAppearance (l : List String) : List String :=
  l.foldl (fun acc s => if s ∈ acc then acc else acc ++ [s]) []

/-- The industries of `industry_year_data` in `_generate_growth_insights`
(lines 364-371): dict keys in insertion order over the filtered records. -/
def growthIndustries (records : List GenAIAdoptionRecord) : List String :=
  firstAppearance (records.map (·.industry))

/-- `sorted(year_data.keys())` of `_generate_growth_insights` (line 376):
the distinct years recorded for an industry, in ascending order. -/
def sortedYears (records : List GenAIAdoptionRecord) (ind : String) : List ℤ :=
  sortAsc (((records.filter (fun r => r.industry == ind)).map (·.year)).dedup)

/-- `industry_year_data[industry][year]` of `_generate_growth_insights`
(line 371): the adoption rates of an industry's records for one year, in
record order. -/
def ratesFor (records : List GenAIAdoptionRecord) (ind : String) (y : ℤ) : List ℚ :=
  (records.filter (fun r => r.industry == ind && r.year == y)).map (·.adoption_rate)

/-- The `growth_rates` list of `_generate_growth_insights` (lines 380-390):
for each consecutive pair of sorted years, year-over-year growth of the
per-year mean adoption rate, skipping pairs whose previous-year mean is not
positive. -/
def growthRates (records : List GenAIAdoptionRecord) (ind : String) : List ℚ :=
  let ys := sortedYears records ind
  (ys.zip ys.tail).filterMap fun pc =>
    let prev_avg := meanQ (ratesFor records ind pc.1)
    let curr_avg := meanQ (ratesFor records ind pc.2)
    if 0 < prev_avg then some ((curr_avg - prev_avg) / prev_avg) else none

/-- The `industry_growth_rates` dict of `_generate_growth_insights`
(lines 374-394): industries with at least two distinct years and at least
one computed growth rate, paired with their average growth rate, in dict
insertion order. -/
def industryGrowthRates (records : List GenAIAdoptionRecord) : List (String × ℚ) :=
  (growthIndustries records).filterMap fun ind =>
    if (sortedYears records ind).length < 2 then none
    else
      let gr := growthRates records ind
      if gr.isEmpty then none else some (ind, meanQ gr)

/-- Python's `max(d, key=d.get)` over an association list in dict order:
the first entry with the maximal value (later entries replace the current
best only when strictly greater). -/
def pyMaxBy (l : List (String × ℚ)) : Option (String × ℚ) :=
  match l with
  | [] => none
  | h :: t => some (t.foldl (fun best p => if best.2 < p.2 then p else best) h)

/-- Python's `min(d, key=d.get)` over an association list in dict order:
the first entry with the minimal value. -/
def pyMinBy (l : List (String × ℚ)) : Option (String × ℚ) :=
  match l with
  | [] => none
  | h :: t => some (t.foldl (fun best p => if p.2 < best.2 then p else best) h)

/-- The fields of the growth insight of `_generate_growth_insights`
(lines 405-423) that the specification constrains; the prose fields are
derived from these. -/
structure GrowthInsight where
  category : String
  industry : String
  growth_rate : ℚ
  confidence : ℚ
deriving DecidableEq, Repr

/-- `InsightsEngine._generate_growth_insights` (lines 351-425): filter the
records (same truthiness semantics as `_apply_filters`), group by industry
and year, select the industry with the highest average year-over-year
growth of per-year mean adoption, and emit one `growth_trends` insight iff
that rate exceeds 0.1, with confidence `min(0.9, distinct_year_count / 5)`. -/
def generate_growth_insights (all_records : List GenAIAdoptionRecord)
    (years : Option (List ℤ)) (industries : Option (List String)) :
    List GrowthInsight :=
  if all_records.isEmpty then []
  else
    let fr := apply_filters (·.year) (·.industry) all_records years industries
    match pyMaxBy (industryGrowthRates fr) with
    | none => []
    | some best =>
      if 0.1 < best.2 then
        let sample_size := (sortedYears fr best.1).length
        [⟨"growth_trends", best.1, best.2, min 0.9 ((sample_size : ℚ) / 5)⟩]
      else []

/-- The `(industry, efficiency)` pairs of `_generate_investment_insights`
(lines 435-439): one pair per record with `use_cases_count > 0`, carrying
`investment_millions / use_cases_count`. -/
def investmentPairs (records : List GenAIAdoptionRecord) : List (String × ℚ) :=
  records.filterMap fun r =>
    if 0 < r.use_cases_count then
      some (r.industry, r.investment_millions / (r.use_cases_count : ℚ))
    else none

/-- The `industry_avg_efficiency` dict of `_generate_investment_insights`
(lines 443-450): per industry (in insertion order), the mean of its
efficiency values. -/
def industryAvgEfficiency (pairs : List (String × ℚ)) : List (String × ℚ) :=
  (firstAppearance (pairs.map (·.1))).map fun ind =>
    (ind, meanQ ((pairs.filter (fun p => p.1 == ind)).map (·.2)))

/-- The fields of the investment insight of `_generate_investment_insights`
(lines 458-475) that the specification constrains. -/
structure InvestmentInsight where
  category : String
  industry : String
  efficiency_ratio : ℚ
  confidence : ℚ
  sample_size : ℕ
deriving DecidableEq, Repr

/-- `InsightsEngine._generate_investment_insights` (lines 427-477): among
records with `use_cases_count > 0`, select the industry with the minimal
average `investment_millions / use_cases_count` and emit one
`investment_analysis` insight with confidence `min(0.85, sample_count/8)`,
where `sample_count` is that industry's number of qualifying records. -/
def generate_investment_insights (records : List GenAIAdoptionRecord) :
    List InvestmentInsight :=
  if records.isEmpty then []
  else
    let pairs := investmentPairs records
    match pyMinBy (industryAvgEfficiency pairs) with
    | none => []
    | some best =>
      let sample_size := ((pairs.filter (fun p => p.1 == best.1)).map (·.2)).length
      [⟨"investment_analysis", best.1, best.2, min 0.85 ((sample_size : ℚ) / 8), sample_size⟩]

/-- JSON serialization of a list of integers, as Python's `json.dumps`
renders it (elements joined by a comma and a space). -/
def jsonInts (l : List ℤ) : String :=
  "[" ++ String.intercalate ", " (l.map toString) ++ "]"

/-- JSON serialization of a list of strings, as Python's `json.dumps`
renders it (the industry values contain no characters needing escapes). -/
def jsonStrs (l : List String) : String :=
  "[" ++ String.intercalate ", " (l.map (fun s => "\"" ++ s ++ "\"")) ++ "]"

/-- JSON for an optional year list: `null` for `None`. -/
def jsonOptInts : Option (List ℤ) → String
  | none => "null"
  | some l => jsonInts l

/-- JSON for an optional industry list: `null` for `None`. -/
def jsonOptStrs : Option (List String) → String
  | none => "null"
  | some l => jsonStrs l

/-- The string `json.dumps({"years": years, "industries": industries},
sort_keys=True)` of `InsightCache._generate_key` (line 46): `sort_keys`
orders the two dict keys (`"industries"` before `"years"`) but does not
sort the lists themselves, which are serialized in their given order. -/
def serialize_filters (years : Option (List ℤ)) (industries : Option (List String)) :
    String :=
  "\x7b\"industries\": " ++ jsonOptStrs industries ++
    ", \"years\": " ++ jsonOptInts years ++ "\x7d"

/-- `InsightCache._generate_key` (lines 44-47).  The MD5 hex digest of the
serialized filter string is modelled as the serialized string itself: the
digest is a deterministic function of that string, so two calls receive
the same key exactly when their serializations coincide (MD5 is treated as
collision-free on the finitely many filter strings that occur). -/
def generate_key (years : Option (List ℤ)) (industries : Option (List String)) :
    String :=
  serialize_filters years industries

/-- An insight as the cache sees it: a payload plus its `computed_at`
creation time (minutes on an abstract clock, as used by the TTL check). -/
structure Stamped (α : Type) where
  val : α
  computed_at : ℚ
deriving DecidableEq, Repr

/-- The `InsightCache.cache` dict (line 41): key to
`(insights, timestamp)`, modelled as an association list whose `lookup`
agrees with the dict. -/
def CacheState (α : Type) : Type := List (String × (List (Stamped α) × ℚ))

/-- The TTL of `InsightCache` as used by `InsightsEngine` (line 76):
10 minutes. -/
def ttl_minutes : ℚ := 10

/-- `InsightCache.get` (lines 49-58): a hit iff the key is present and the
entry is younger than the TTL; a present-but-stale entry is deleted
(`del self.cache[key]`).  Returns the result together with the cache state
after the call. -/
def cache_get {α : Type} (cache : CacheState α) (key : String) (now : ℚ) :
    Option (List (Stamped α)) × CacheState α :=
  match List.lookup key cache with
  | none => (none, cache)
  | some (insights, timestamp) =>
    if now - timestamp < ttl_minutes then (some insights, cache)
    else (none, List.filter (fun e => !(e.1 == key)) cache)

/-- `InsightCache.set` (lines 60-63): insert or overwrite the entry with
the current timestamp (dict assignment modelled as remove-then-prepend,
which `List.lookup` reads identically). -/
def cache_set {α : Type} (cache : CacheState α) (key : String)
    (insights : List (Stamped α)) (now : ℚ) : CacheState α :=
  (key, (insights, now)) :: List.filter (fun e => !(e.1 == key)) cache

/-- `InsightsEngine.generate_insights` (lines 79-122).  `computeCore`
stands for lines 104-116 (loading the fixed datasets, filtering, and
running the four generators): its payload depends only on the filters,
while each emitted insight is stamped with the current time
(`computed_at = datetime.utcnow()`).  A cached value is served only when
it is truthy (`if cached_insights:`), i.e. a non-empty list; otherwise the
insights are recomputed and stored. -/
def engine_generate_insights {α : Type}
    (computeCore : Option (List ℤ) → Option (List String) → List α)
    (cache : CacheState α) (years : Option (List ℤ))
    (industries : Option (List String)) (now : ℚ) :
    List (Stamped α) × CacheState α :=
  let key := generate_key years industries
  let got := cache_get cache key now
  match got.1 with
  | some cached_insights =>
    if cached_insights.isEmpty then
      let insights := (computeCore years industries).map (fun c => ⟨c, now⟩)
      (insights, cache_set got.2 key insights now)
    else (cached_insights, got.2)
  | none =>
    let insights := (computeCore years industries).map (fun c => ⟨c, now⟩)
    (insights, cache_set got.2 key insights now)

theorem lookup_filter_ne {β : Type} (key : String) (l : List (String × β)) :
    List.lookup key (List.filter (fun e => !(e.1 == key)) l) = none := by
  induction l with
  | nil => simp
  | cons h t ih =>
    rcases h with ⟨k, v⟩
    by_cases hk : k = key
    · subst hk
      simpa using ih
    · simpa [List.filter_cons, hk, Ne.symm hk] using ih

theorem foldlMax_mem (t : List (String × ℚ)) :
    ∀ h : String × ℚ,
      (t.foldl (fun best p => if best.2 < p.2 then p else best) h) ∈ h :: t := by
  induction t with
  | nil => intro h; simp
  | cons a t ih =>
    intro h
    simp only [List.foldl_cons]
    have hmem := ih (if h.2 < a.2 then a else h)
    rcases List.mem_cons.mp hmem with heq | hmem2
    · rw [heq]
      split
      · simp
      · simp
    · exact List.mem_cons_of_mem _ (List.mem_cons_of_mem _ hmem2)

theorem foldlMax_ge (t : List (String × ℚ)) :
    ∀ (h : String × ℚ) (q : String × ℚ), q ∈ h :: t →
      q.2 ≤ (t.foldl (fun best p => if best.2 < p.2 then p else best) h).2 := by
  induction t with
  | nil =>
    intro h q hq
    simp only [List.mem_singleton] at hq
    rw [hq]
    simp
  | cons a t ih =>
    intro h q hq
    simp only [List.foldl_cons]
    have hh : h.2 ≤ (if h.2 < a.2 then a else h).2 := by
      split
      · next hc => exact le_of_lt hc
      · exact le_refl _
    have ha : a.2 ≤ (if h.2 < a.2 then a else h).2 := by
      split
      · exact le_refl _
      · next hc => exact le_of_not_lt hc
    rcases List.mem_cons.mp hq with rfl | hq2
    · exact le_trans hh (ih _ _ (List.mem_cons_self _ _))
    rcases List.mem_cons.mp hq2 with rfl | hq3
    · exact le_trans ha (ih _ _ (List.mem_cons_self _ _))
    · exact ih _ _ (List.mem_cons_of_mem _ hq3)

theorem foldlMin_mem (t : List (String × ℚ)) :
    ∀ h : String × ℚ,
      (t.foldl (fun best p => if p.2 < best.2 then p else best) h) ∈ h :: t := by
  induction t with
  | nil => intro h; simp
  | cons a t ih =>
    intro h
    simp only [List.foldl_cons]
    have hmem := ih (if a.2 < h.2 then a else h)
    rcases List.mem_cons.mp hmem with heq | hmem2
    · rw [heq]
      split
      · simp
      · simp
    · exact List.mem_cons_of_mem _ (List.mem_cons_of_mem _ hmem2)

theorem foldlMin_le (t : List (String × ℚ)) :
    ∀ (h : String × ℚ) (q : String × ℚ), q ∈ h :: t →
      (t.foldl (fun best p => if p.2 < best.2 then p else best) h).2 ≤ q.2 := by
  induction t with
  | nil =>
    intro h q hq
    simp only [List.mem_singleton] at hq
    rw [hq]
    simp
  | cons a t ih =>
    intro h q hq
    simp only [List.foldl_cons]
    have hh : (if a.2 < h.2 then a else h).2 ≤ h.2 := by
      split
      · next hc => exact le_of_lt hc
      · exact le_refl _
    have ha : (if a.2 < h.2 then a else h).2 ≤ a.2 := by
      split
      · exact le_refl _
      · next hc => exact le_of_not_lt hc
    rcases List.mem_cons.mp hq with rfl | hq2
    · exact le_trans (ih _ _ (List.mem_cons_self _ _)) hh
    rcases List.mem_cons.mp hq2 with rfl | hq3
    · exact le_trans (ih _ _ (List.mem_cons_self _ _)) ha
    · exact ih _ _ (List.mem_cons_of_mem _ hq3)

theorem pyMaxBy_spec {l : List (String × ℚ)} {p : String × ℚ}
    (h : pyMaxBy l = some p) : p ∈ l ∧ ∀ q ∈ l, q.2 ≤ p.2 := by
  match l, h with
  | a :: t, h =>
    simp only [pyMaxBy, Option.some.injEq] at h
    subst h
    exact ⟨foldlMax_mem t a, fun q hq => foldlMax_ge t a q hq⟩

theorem pyMinBy_spec {l : List (String × ℚ)} {p : String × ℚ}
    (h : pyMinBy l = some p) : p ∈ l ∧ ∀ q ∈ l, p.2 ≤ q.2 := by
  match l, h with
  | a :: t, h =>
    simp only [pyMinBy, Option.some.injEq] at h
    subst h
    exact ⟨foldlMin_mem t a, fun q hq => foldlMin_le t a q hq⟩

theorem mem_firstAppearance {s : String} {l : List String} (h : s ∈ l) :
    s ∈ firstAppearance l := by
  suffices hgen : ∀ acc : List String, s ∈ l ∨ s ∈ acc →
      s ∈ l.foldl (fun acc t => if t ∈ acc then acc else acc ++ [t]) acc by
    exact hgen [] (Or.inl h)
  clear h
  induction l with
  | nil =>
    intro acc hacc
    rcases hacc with hl | ha
    · simp at hl
    · simpa using ha
  | cons a t ih =>
    intro acc hacc
    simp only [List.foldl_cons]
    apply ih
    rcases hacc with hl | ha
    · rcases List.mem_cons.mp hl with rfl | hmem
      · right
        split
        · assumption
        · simp
      · exact Or.inl hmem
    · right
      split
      · exact ha
      · simp [ha]

/-- Soundness of the growth generator: an emitted insight has category
`growth_trends`, rate above the 10% gate, carries the maximal average
growth over the filtered records' growth table, and its confidence is
`min(0.9, distinct_year_count / 5)`. -/
theorem generate_growth_mem_elim {all_records : List GenAIAdoptionRecord}
    {years : Option (List ℤ)} {industries : Option (List String)}
    {ins : GrowthInsight}
    (hins : ins ∈ generate_growth_insights all_records years industries) :
    ins.category = "growth_trends" ∧
    (1 : ℚ)/10 < ins.growth_rate ∧
    (ins.industry, ins.growth_rate) ∈
      industryGrowthRates (apply_filters (·.year) (·.industry) all_records years industries) ∧
    (∀ q ∈ industryGrowthRates (apply_filters (·.year) (·.industry) all_records years industries),
      q.2 ≤ ins.growth_rate) ∧
    ins.confidence = min 0.9
      (((sortedYears (apply_filters (·.year) (·.industry) all_records years industries)
          ins.industry).length : ℚ) / 5) := by
  simp only [generate_growth_insights] at hins
  split at hins
  · simp at hins
  · split at hins
    · simp at hins
    · next best heq =>
      split at hins
      · next hgt =>
        simp only [List.mem_singleton] at hins
        subst hins
        have hspec := pyMaxBy_spec heq
        refine ⟨rfl, by norm_num at hgt ⊢; exact hgt, ?_, ?_, rfl⟩
        · simpa using hspec.1
        · simpa using hspec.2
      · simp at hins

theorem pyRound3_one {K : Type} [LinearOrderedField K] [FloorRing K]
    [DecidableEq K] : pyRound3 (1 : K) = 1 := by
  simpa using pyRound3_intCast (K := K) 1

theorem pyRound3_neg_one {K : Type} [LinearOrderedField K] [FloorRing K]
    [DecidableEq K] : pyRound3 (-1 : K) = -1 := by
  simpa using pyRound3_intCast (K := K) (-1)

theorem mean_01 : mean [0, 1] = 1/2 := by simp [mean]

theorem sumSqDev_01 : sumSqDev [0, 1] = 1/2 := by
  simp [sumSqDev, mean_01]
  norm_num

theorem covSum_01 : covSum [0, 1] [0, 1] = 1/2 := by
  simp [covSum, mean_01]
  norm_num

theorem sqrtDenom_01 : Real.sqrt (sumSqDev [0, 1] * sumSqDev [0, 1]) = 1/2 := by
  rw [sumSqDev_01]
  exact Real.sqrt_mul_self (by norm_num)

/-- Evaluation of the Pearson function at the two-point samples
`x = y = [0, 1]`: the correlation is exactly 1, so the `|r| >= 0.999`
branch fires and the p-value is 0.001 although `n = 2`. -/
theorem pearson_01 : calculate_pearson_correlation [0, 1] [0, 1] = (1, 1/1000, 2) := by
  simp only [calculate_pearson_correlation]
  rw [if_neg (by norm_num)]
  rw [sqrtDenom_01, if_neg (by norm_num : ¬ (1:ℝ)/2 = 0), covSum_01]
  have hr : ((1:ℝ)/2) / ((1:ℝ)/2) = 1 := by norm_num
  rw [hr]
  simp only [Prod.mk.injEq]
  refine ⟨pyRound3_one, ?_, by norm_num⟩
  simp only [approx_p]
  rw [if_pos (by norm_num)]
  norm_num

/-- C1, counterexample: at the equal-length samples `[0, 1]` and `[0, 1]`
the sample size is `2 < 3`, yet the returned approximate p-value is 0.001
rather than the claimed 1.0 (the code's guard is `n < 2`, not `n < 3`, and
two distinct points give `|r| = 1 ≥ 0.999`). -/
theorem pearson_pvalue_small_n_cex :
    ([(0:ℝ), 1].length < 3) ∧
    (calculate_pearson_correlation [0, 1] [0, 1]).2.1 = 1/1000 ∧
    ((1:ℝ)/1000 ≠ 1) := by
  refine ⟨by norm_num, ?_, by norm_num⟩
  rw [pearson_01]

/-- C1, amended: the returned p-value is 1.0 exactly when the samples have
unequal lengths, fewer than 2 points, or a zero denominator
`sqrt(sum_sq_x * sum_sq_y)`; otherwise (any `n ≥ 2`) it equals the
four-bucket approximation `approx_p` applied to the unrounded correlation:
0.001 when `|r| ≥ 0.999`, else `t = |r|·sqrt((n-2)/(1-r²))` mapped by
`t>2.576 → 0.01`, `t>1.96 → 0.05`, `t>1.645 → 0.10`, else `0.20`. -/
theorem pearson_pvalue_cases (x y : List ℝ) :
    (x.length ≠ y.length ∨ x.length < 2 →
      (calculate_pearson_correlation x y).2.1 = 1) ∧
    (x.length = y.length → 2 ≤ x.length →
      Real.sqrt (sumSqDev x * sumSqDev y) = 0 →
      (calculate_pearson_correlation x y).2.1 = 1) ∧
    (x.length = y.length → 2 ≤ x.length →
      Real.sqrt (sumSqDev x * sumSqDev y) ≠ 0 →
      (calculate_pearson_correlation x y).2.1 =
        approx_p (covSum x y / Real.sqrt (sumSqDev x * sumSqDev y)) x.length) := by
  refine ⟨?_, ?_, ?_⟩
  · intro h
    simp only [calculate_pearson_correlation]
    rw [if_pos h]
  · intro hlen h2 hd0
    simp only [calculate_pearson_correlation]
    rw [if_neg (by omega : ¬(x.length ≠ y.length ∨ x.length < 2))]
    rw [if_pos hd0]
  · intro hlen h2 hdne
    simp only [calculate_pearson_correlation]
    rw [if_neg (by omega : ¬(x.length ≠ y.length ∨ x.length < 2))]
    rw [if_neg hdne]

/-- C1, witness: the no-guard branch of `pearson_pvalue_cases` is
realizable at the concrete samples `[0, 1]`, `[0, 1]`. -/
theorem pearson_pvalue_cases_witness :
    (calculate_pearson_correlation [0, 1] [0, 1]).2.1 =
      approx_p (covSum [0, 1] [0, 1] /
          Real.sqrt (sumSqDev [0, 1] * sumSqDev [0, 1]))
        ([(0:ℝ), 1].length) :=
  (pearson_pvalue_cases [0, 1] [0, 1]).2.2 rfl (by norm_num)
    (by rw [sqrtDenom_01]; norm_num)

theorem pearson_comm (x y : List ℝ) :
    calculate_pearson_correlation x y = calculate_pearson_correlation y x := by
  by_cases h1 : x.length = y.length
  · simp only [calculate_pearson_correlation]
    rw [h1, covSum_comm, mul_comm (sumSqDev x) (sumSqDev y)]
  · simp only [calculate_pearson_correlation]
    rw [if_pos (Or.inl h1), if_pos (Or.inl (Ne.symm h1))]

/-- C7: over equal-length samples, the rounded Pearson correlation is
symmetric; with at least two points and nonzero variance on both sides it
lies in `[-1, 1]`; the self-correlation is exactly 1.0; and fewer than two
points or a constant sample yield exactly 0.0. -/
theorem pearson_correlation_properties (x y : List ℝ)
    (hlen : x.length = y.length) :
    (calculate_pearson_correlation x y).1 = (calculate_pearson_correlation y x).1 ∧
    (2 ≤ x.length → sumSqDev x ≠ 0 → sumSqDev y ≠ 0 →
      -1 ≤ (calculate_pearson_correlation x y).1 ∧
        (calculate_pearson_correlation x y).1 ≤ 1) ∧
    (2 ≤ x.length → sumSqDev x ≠ 0 →
      (calculate_pearson_correlation x x).1 = 1) ∧
    (x.length < 2 → (calculate_pearson_correlation x y).1 = 0) ∧
    ((∃ c, ∀ a ∈ x, a = c) → (calculate_pearson_correlation x y).1 = 0) ∧
    ((∃ c, ∀ a ∈ y, a = c) → (calculate_pearson_correlation x y).1 = 0) := by
  refine ⟨by rw [pearson_comm], ?_, ?_, ?_, ?_, ?_⟩
  · intro h2 hx hy
    have hxpos : 0 < sumSqDev x := lt_of_le_of_ne (sumSqDev_nonneg x) (Ne.symm hx)
    have hypos : 0 < sumSqDev y := lt_of_le_of_ne (sumSqDev_nonneg y) (Ne.symm hy)
    have hdpos : 0 < Real.sqrt (sumSqDev x * sumSqDev y) :=
      Real.sqrt_pos.mpr (mul_pos hxpos hypos)
    have habs : |covSum x y| ≤ Real.sqrt (sumSqDev x * sumSqDev y) :=
      Real.abs_le_sqrt (covSum_sq_le x y)
    have hr1 : covSum x y / Real.sqrt (sumSqDev x * sumSqDev y) ≤ 1 := by
      rw [div_le_one hdpos]
      exact le_trans (le_abs_self _) habs
    have hr2 : -1 ≤ covSum x y / Real.sqrt (sumSqDev x * sumSqDev y) := by
      rw [le_div_iff₀ hdpos]
      have hneg := neg_abs_le (covSum x y)
      linarith
    simp only [calculate_pearson_correlation]
    rw [if_neg (by omega : ¬(x.length ≠ y.length ∨ x.length < 2)),
      if_neg (ne_of_gt hdpos)]
    dsimp only
    constructor
    · calc (-1 : ℝ) = pyRound3 (-1 : ℝ) := pyRound3_neg_one.symm
        _ ≤ pyRound3 (covSum x y / Real.sqrt (sumSqDev x * sumSqDev y)) :=
          pyRound3_mono hr2
    · calc pyRound3 (covSum x y / Real.sqrt (sumSqDev x * sumSqDev y))
          ≤ pyRound3 (1 : ℝ) := pyRound3_mono hr1
        _ = 1 := pyRound3_one
  · intro h2 hx
    have hd : Real.sqrt (sumSqDev x * sumSqDev x) = sumSqDev x :=
      Real.sqrt_mul_self (sumSqDev_nonneg x)
    simp only [calculate_pearson_correlation]
    rw [if_neg (by omega : ¬(x.length ≠ x.length ∨ x.length < 2))]
    rw [hd, if_neg hx, covSum_self, div_self hx]
    dsimp only
    exact pyRound3_one
  · intro h
    simp only [calculate_pearson_correlation]
    rw [if_pos (Or.inr h)]
  · rintro ⟨c, hc⟩
    by_cases h1 : x.length ≠ y.length ∨ x.length < 2
    · simp only [calculate_pearson_correlation]
      rw [if_pos h1]
    · have hz : sumSqDev x = 0 := sumSqDev_eq_zero_of_const hc
      have hd : Real.sqrt (sumSqDev x * sumSqDev y) = 0 := by
        rw [hz, zero_mul, Real.sqrt_zero]
      simp only [calculate_pearson_correlation]
      rw [if_neg h1, if_pos hd]
  · rintro ⟨c, hc⟩
    by_cases h1 : x.length ≠ y.length ∨ x.length < 2
    · simp only [calculate_pearson_correlation]
      rw [if_pos h1]
    · have hz : sumSqDev y = 0 := sumSqDev_eq_zero_of_const hc
      have hd : Real.sqrt (sumSqDev x * sumSqDev y) = 0 := by
        rw [hz, mul_zero, Real.sqrt_zero]
      simp only [calculate_pearson_correlation]
      rw [if_neg h1, if_pos hd]

/-- C7, witness: the properties instantiated at the concrete equal-length
samples `[0, 1]` and `[0, 2]`. -/
theorem pearson_correlation_properties_witness :
    ((calculate_pearson_correlation [0, 1] [0, 2]).1 =
      (calculate_pearson_correlation [0, 2] [0, 1]).1) ∧
    (2 ≤ [(0:ℝ), 1].length → sumSqDev [0, 1] ≠ 0 → sumSqDev [0, 2] ≠ 0 →
      -1 ≤ (calculate_pearson_correlation [0, 1] [0, 2]).1 ∧
        (calculate_pearson_correlation [0, 1] [0, 2]).1 ≤ 1) ∧
    (2 ≤ [(0:ℝ), 1].length → sumSqDev [0, 1] ≠ 0 →
      (calculate_pearson_correlation [0, 1] [0, 1]).1 = 1) ∧
    ([(0:ℝ), 1].length < 2 → (calculate_pearson_correlation [0, 1] [0, 2]).1 = 0) ∧
    ((∃ c, ∀ a ∈ [(0:ℝ), 1], a = c) →
      (calculate_pearson_correlation [0, 1] [0, 2]).1 = 0) ∧
    ((∃ c, ∀ a ∈ [(0:ℝ), 2], a = c) →
      (calculate_pearson_correlation [0, 1] [0, 2]).1 = 0) :=
  pearson_correlation_properties [0, 1] [0, 2] rfl

/-- C5: the confidence score is `round(min(0.95, (1-p)·(n/100)·(1+|d|/2)), 3)`,
never exceeds 0.95, is monotonically non-decreasing in the sample size and
non-increasing in the p-value. -/
theorem confidence_bounded_monotone (p d : ℚ) (n : ℕ)
    (hp0 : 0 ≤ p) (hp1 : p ≤ 1) :
    calculate_confidence p n d =
      pyRound3 (min 0.95 ((1 - p) * ((n : ℚ) / 100) * (1 + |d| / 2))) ∧
    calculate_confidence p n d ≤ 0.95 ∧
    (∀ m : ℕ, n ≤ m → calculate_confidence p n d ≤ calculate_confidence p m d) ∧
    (∀ q : ℚ, p ≤ q → q ≤ 1 →
      calculate_confidence q n d ≤ calculate_confidence p n d) := by
  have hmul : (0:ℚ) ≤ 1 + |d| / 2 := by positivity
  refine ⟨rfl, ?_, ?_, ?_⟩
  · have hb : min (0.95:ℚ) ((1 - p) * ((n : ℚ) / 100) * (1 + |d| / 2)) ≤
        ((950:ℤ):ℚ)/1000 :=
      le_trans (min_le_left _ _) (by norm_num)
    calc calculate_confidence p n d
        = pyRound3 (min (0.95:ℚ) ((1 - p) * ((n : ℚ) / 100) * (1 + |d| / 2))) := rfl
      _ ≤ ((950:ℤ):ℚ)/1000 := pyRound3_le_of_le hb
      _ = 0.95 := by norm_num
  · intro m hm
    apply pyRound3_mono
    apply min_le_min (le_refl _)
    apply mul_le_mul_of_nonneg_right _ hmul
    apply mul_le_mul_of_nonneg_left _ (by linarith : (0:ℚ) ≤ 1 - p)
    have hc : ((n:ℚ)) ≤ (m:ℚ) := by exact_mod_cast hm
    linarith
  · intro q hq hq1
    apply pyRound3_mono
    apply min_le_min (le_refl _)
    apply mul_le_mul_of_nonneg_right _ hmul
    apply mul_le_mul_of_nonneg_right _ (by positivity : (0:ℚ) ≤ (n:ℚ)/100)
    linarith

/-- C5, witness: the bound and both monotonicity properties instantiated at
`p = 1/2`, `d = 3`, `n = 50`. -/
theorem confidence_bounded_monotone_witness :
    calculate_confidence (1/2) 50 3 =
      pyRound3 (min 0.95 ((1 - 1/2) * (((50:ℕ) : ℚ) / 100) * (1 + |(3:ℚ)| / 2))) ∧
    calculate_confidence (1/2) 50 3 ≤ 0.95 ∧
    (∀ m : ℕ, 50 ≤ m → calculate_confidence (1/2) 50 3 ≤ calculate_confidence (1/2) m 3) ∧
    (∀ q : ℚ, 1/2 ≤ q → q ≤ 1 →
      calculate_confidence q 50 3 ≤ calculate_confidence (1/2) 50 3) :=
  confidence_bounded_monotone (1/2) 3 50 (by norm_num) (by norm_num)

/-- C6, counterexample: the composite cloud-usage score is not rounded to
3 decimals: for the record with `bedrock_usage = 1/10000` and the other
four fractions zero, the code's score is `0.00003`, while rounding the
weighted sum to 3 decimals would give `0.0`. -/
theorem aws_score_unrounded_cex :
    aws_score ⟨"Healthcare", 2023, 1/10000, 0, 0, 0, 0⟩ = 3/100000 ∧
    pyRound3 ((3:ℚ)/100000) = 0 ∧
    aws_score ⟨"Healthcare", 2023, 1/10000, 0, 0, 0, 0⟩ ≠
      pyRound3 (aws_score ⟨"Healthcare", 2023, 1/10000, 0, 0, 0, 0⟩) := by
  have h1 : aws_score ⟨"Healthcare", 2023, 1/10000, 0, 0, 0, 0⟩ = 3/100000 := by
    unfold aws_score
    norm_num
  have h2 : pyRound3 ((3:ℚ)/100000) = 0 := by
    have hfl : ⌊((3:ℚ)/100000) * 1000⌋ = 0 := by norm_num [Int.floor_eq_iff]
    have hne : ((3:ℚ)/100000) * 1000 - ⌊((3:ℚ)/100000) * 1000⌋ ≠ 1/2 := by
      rw [hfl]
      norm_num
    unfold pyRound3 roundHalfEven
    rw [if_neg hne, round_eq,
      show ((3:ℚ)/100000 * 1000 + 1/2) = 53/100 by norm_num]
    have h3 : ⌊(53/100 : ℚ)⌋ = 0 := by norm_num [Int.floor_eq_iff]
    rw [h3]
    norm_num
  exact ⟨h1, h2, by rw [h1, h2]; norm_num⟩

/-- C6, amended: the composite cloud-usage score is exactly the weighted
sum with weights 0.3, 0.3, 0.2, 0.1, 0.1 (no rounding is applied); the
weights sum to 1, so a record whose five fractions all equal `v` scores
exactly `v`. -/
theorem aws_score_weighted (r : AWSUsageRecord) :
    aws_score r = 3/10 * r.bedrock_usage + 3/10 * r.sagemaker_usage +
      1/5 * r.lambda_usage + 1/10 * r.s3_usage + 1/10 * r.ec2_usage ∧
    ((3:ℚ)/10 + 3/10 + 1/5 + 1/10 + 1/10) = 1 ∧
    (∀ v : ℚ, r.bedrock_usage = v → r.sagemaker_usage = v → r.lambda_usage = v →
      r.s3_usage = v → r.ec2_usage = v → aws_score r = v) := by
  refine ⟨by unfold aws_score; ring, by norm_num, ?_⟩
  rintro v hb hs hl h3 he
  unfold aws_score
  rw [hb, hs, hl, h3, he]
  ring_nf

/-- C6, witness: a record with all five usage fractions 1/2 scores
exactly 1/2. -/
theorem aws_score_weighted_witness :
    aws_score ⟨"Healthcare", 2023, 1/2, 1/2, 1/2, 1/2, 1/2⟩ = 1/2 :=
  (aws_score_weighted ⟨"Healthcare", 2023, 1/2, 1/2, 1/2, 1/2, 1/2⟩).2.2
    (1/2) rfl rfl rfl rfl rfl

/-- C2, counterexample: with a given-but-empty year list, the code keeps
every record (Python truthiness: `if years and ...` does not filter), while
the claim's reading — the year must lie in the given (empty) set — keeps
none. -/
theorem apply_filters_empty_list_cex :
    apply_filters (fun r : GenAIAdoptionRecord => r.year) (fun r => r.industry)
        [⟨"Healthcare", 2023, 1/2, 10, 50⟩] (some []) none =
      [⟨"Healthcare", 2023, 1/2, 10, 50⟩] ∧
    apply_filters_spec (fun r : GenAIAdoptionRecord => r.year) (fun r => r.industry)
        [⟨"Healthcare", 2023, 1/2, 10, 50⟩] (some []) none = [] ∧
    apply_filters (fun r : GenAIAdoptionRecord => r.year) (fun r => r.industry)
        [⟨"Healthcare", 2023, 1/2, 10, 50⟩] (some []) none ≠
      apply_filters_spec (fun r : GenAIAdoptionRecord => r.year) (fun r => r.industry)
        [⟨"Healthcare", 2023, 1/2, 10, 50⟩] (some []) none := by
  have h1 : apply_filters (fun r : GenAIAdoptionRecord => r.year) (fun r => r.industry)
      [⟨"Healthcare", 2023, 1/2, 10, 50⟩] (some []) none =
      [⟨"Healthcare", 2023, 1/2, 10, 50⟩] := by
    simp [apply_filters, keepYears, keepIndustries]
  have h2 : apply_filters_spec (fun r : GenAIAdoptionRecord => r.year) (fun r => r.industry)
      [⟨"Healthcare", 2023, 1/2, 10, 50⟩] (some []) none = [] := by
    simp [apply_filters_spec, keepYearsSpec, keepIndustriesSpec]
  exact ⟨h1, h2, by rw [h1, h2]; simp⟩

/-- C2, amended: the filter returns exactly the order-preserving
subsequence of records whose year belongs to the year list (or the year
list is absent *or empty*) and whose industry belongs to the industry list
(or the industry list is absent *or empty*); empty input and empty output
are ordinary values. -/
theorem apply_filters_characterization {α : Type} (year : α → ℤ)
    (industry : α → String) (records : List α) (years : Option (List ℤ))
    (industries : Option (List String)) :
    (apply_filters year industry records years industries).Sublist records ∧
    (∀ r, r ∈ apply_filters year industry records years industries ↔
      r ∈ records ∧ keepYears years (year r) = true ∧
        keepIndustries industries (industry r) = true) ∧
    (∀ z : ℤ, keepYears years z = true ↔
      years = none ∨ years = some [] ∨ ∃ ys, years = some ys ∧ z ∈ ys) ∧
    (∀ s : String, keepIndustries industries s = true ↔
      industries = none ∨ industries = some [] ∨ ∃ l, industries = some l ∧ s ∈ l) := by
  refine ⟨List.filter_sublist _, ?_, ?_, ?_⟩
  · intro r
    simp [apply_filters, List.mem_filter]
  · intro z
    cases years with
    | none => simp [keepYears]
    | some ys =>
      cases ys with
      | nil => simp [keepYears]
      | cons a t => simp [keepYears]
  · intro s
    cases industries with
    | none => simp [keepIndustries]
    | some l =>
      cases l with
      | nil => simp [keepIndustries]
      | cons a t => simp [keepIndustries]

/-- C4, counterexample: `json.dumps(..., sort_keys=True)` sorts only the
dict keys, not the lists inside, so the year lists `[2022, 2023]` and
`[2023, 2022]` — permutations of each other — serialize differently and
receive different cache keys. -/
theorem generate_key_permutation_cex :
    generate_key (some [2022, 2023]) none ≠ generate_key (some [2023, 2022]) none ∧
    serialize_filters (some [2022, 2023]) none ≠ serialize_filters (some [2023, 2022]) none := by
  constructor
  · decide
  · decide

/-- C4, amended: the cache key is a deterministic function of the JSON
serialization of the filters in their given order: calls whose filter
lists serialize identically (in particular, element-wise equal lists)
receive the identical key, while permuted lists may receive different
keys. -/
theorem generate_key_congr (y₁ y₂ : Option (List ℤ)) (i₁ i₂ : Option (List String))
    (hs : serialize_filters y₁ i₁ = serialize_filters y₂ i₂) :
    generate_key y₁ i₁ = generate_key y₂ i₂ := by
  unfold generate_key
  exact hs

/-- C4, witness: two calls with the same ordered year list receive the
same key. -/
theorem generate_key_congr_witness :
    generate_key (some [2022, 2023]) none = generate_key (some [2022, 2023]) none :=
  generate_key_congr (some [2022, 2023]) (some [2022, 2023]) none none rfl

theorem cache_get_of_lookup_none {α : Type} {cache : CacheState α} {key : String}
    {now : ℚ} (h : List.lookup key cache = none) :
    cache_get cache key now = (none, cache) := by
  unfold cache_get
  rw [h]

theorem cache_get_fresh {α : Type} {cache : CacheState α} {key : String}
    {ins : List (Stamped α)} {ts now : ℚ}
    (h : List.lookup key cache = some (ins, ts)) (hf : now - ts < ttl_minutes) :
    cache_get cache key now = (some ins, cache) := by
  unfold cache_get
  rw [h]
  exact if_pos hf

theorem cache_get_stale {α : Type} {cache : CacheState α} {key : String}
    {ins : List (Stamped α)} {ts now : ℚ}
    (h : List.lookup key cache = some (ins, ts)) (hs : ttl_minutes ≤ now - ts) :
    cache_get cache key now = (none, List.filter (fun e => !(e.1 == key)) cache) := by
  unfold cache_get
  rw [h]
  exact if_neg (not_lt.mpr hs)

theorem lookup_cache_set {α : Type} (cache : CacheState α) (key : String)
    (ins : List (Stamped α)) (now : ℚ) :
    List.lookup key (cache_set cache key ins now) = some (ins, now) := by
  unfold cache_set
  simp [List.lookup]

theorem engine_compute_of_get_none {α : Type}
    (computeCore : Option (List ℤ) → Option (List String) → List α)
    {cache : CacheState α} {years : Option (List ℤ)}
    {industries : Option (List String)} {now : ℚ}
    (h : (cache_get cache (generate_key years industries) now).1 = none) :
    engine_generate_insights computeCore cache years industries now =
      ((computeCore years industries).map (fun c => ⟨c, now⟩),
        cache_set (cache_get cache (generate_key years industries) now).2
          (generate_key years industries)
          ((computeCore years industries).map (fun c => ⟨c, now⟩)) now) := by
  simp only [engine_generate_insights]
  rw [h]

theorem engine_compute_of_get_some_empty {α : Type}
    (computeCore : Option (List ℤ) → Option (List String) → List α)
    {cache : CacheState α} {years : Option (List ℤ)}
    {industries : Option (List String)} {now : ℚ}
    (h : (cache_get cache (generate_key years industries) now).1 = some []) :
    engine_generate_insights computeCore cache years industries now =
      ((computeCore years industries).map (fun c => ⟨c, now⟩),
        cache_set (cache_get cache (generate_key years industries) now).2
          (generate_key years industries)
          ((computeCore years industries).map (fun c => ⟨c, now⟩)) now) := by
  simp only [engine_generate_insights]
  rw [h]
  simp

theorem engine_hit_of_get_some {α : Type}
    (computeCore : Option (List ℤ) → Option (List String) → List α)
    {cache : CacheState α} {years : Option (List ℤ)}
    {industries : Option (List String)} {now : ℚ} {l : List (Stamped α)}
    (h : (cache_get cache (generate_key years industries) now).1 = some l)
    (hne : l ≠ []) :
    engine_generate_insights computeCore cache years industries now =
      (l, (cache_get cache (generate_key years industries) now).2) := by
  simp only [engine_generate_insights]
  rw [h]
  simp [hne]

/-- C3: starting from a cache miss (or a cached falsy empty list), a second
call with the same filters within the TTL returns exactly the first call's
insight list — including its `computed_at` stamps — and, when that list is
non-empty, is served from the cache without touching it; a present-but-stale
entry makes `get` miss, evicts the entry, and the call recomputes with
fresh timestamps. -/
theorem cache_roundtrip {α : Type}
    (computeCore : Option (List ℤ) → Option (List String) → List α)
    (cache₀ : CacheState α) (years : Option (List ℤ))
    (industries : Option (List String)) (t₀ t₁ : ℚ)
    (hmiss : (cache_get cache₀ (generate_key years industries) t₀).1 = none ∨
      (cache_get cache₀ (generate_key years industries) t₀).1 = some [])
    (h₀ : 0 ≤ t₁ - t₀) (h₁ : t₁ - t₀ < ttl_minutes) :
    ((engine_generate_insights computeCore
        (engine_generate_insights computeCore cache₀ years industries t₀).2
        years industries t₁).1 =
      (engine_generate_insights computeCore cache₀ years industries t₀).1) ∧
    ((engine_generate_insights computeCore cache₀ years industries t₀).1 ≠ [] →
      (engine_generate_insights computeCore
          (engine_generate_insights computeCore cache₀ years industries t₀).2
          years industries t₁).2 =
        (engine_generate_insights computeCore cache₀ years industries t₀).2) ∧
    (∀ (cache : CacheState α) (ins : List (Stamped α)) (ts now : ℚ),
      List.lookup (generate_key years industries) cache = some (ins, ts) →
      ttl_minutes ≤ now - ts →
      (cache_get cache (generate_key years industries) now).1 = none ∧
      List.lookup (generate_key years industries)
        (cache_get cache (generate_key years industries) now).2 = none ∧
      (engine_generate_insights computeCore cache years industries now).1 =
        (computeCore years industries).map (fun c => ⟨c, now⟩)) := by
  have hfirst : engine_generate_insights computeCore cache₀ years industries t₀ =
      ((computeCore years industries).map (fun c => ⟨c, t₀⟩),
        cache_set (cache_get cache₀ (generate_key years industries) t₀).2
          (generate_key years industries)
          ((computeCore years industries).map (fun c => ⟨c, t₀⟩)) t₀) := by
    rcases hmiss with hm | hm
    · exact engine_compute_of_get_none computeCore hm
    · exact engine_compute_of_get_some_empty computeCore hm
  have hlook : List.lookup (generate_key years industries)
      (engine_generate_insights computeCore cache₀ years industries t₀).2 =
      some ((computeCore years industries).map (fun c => ⟨c, t₀⟩), t₀) := by
    rw [hfirst]
    exact lookup_cache_set _ _ _ _
  have hget₁ : cache_get
      (engine_generate_insights computeCore cache₀ years industries t₀).2
      (generate_key years industries) t₁ =
      (some ((computeCore years industries).map (fun c => ⟨c, t₀⟩)),
        (engine_generate_insights computeCore cache₀ years industries t₀).2) :=
    cache_get_fresh hlook (by linarith)
  refine ⟨?_, ?_, ?_⟩
  · by_cases hr : (computeCore years industries).map
        (fun c => (⟨c, t₀⟩ : Stamped α)) = []
    · have hcc : computeCore years industries = [] := by
        simpa using hr
      have hsecond := engine_compute_of_get_some_empty computeCore
        (by rw [hget₁, hr])
      rw [hsecond, hfirst]
      simp [hcc]
    · have hsecond := engine_hit_of_get_some computeCore (by rw [hget₁]) hr
      rw [hsecond, hfirst]
  · intro hne
    rw [hfirst] at hne
    dsimp only at hne
    have hsecond := engine_hit_of_get_some computeCore (by rw [hget₁]) hne
    rw [hsecond, hget₁]
  · intro cache ins ts now hl hstale
    have hget := cache_get_stale hl hstale
    refine ⟨by rw [hget], ?_, ?_⟩
    · rw [hget]
      exact lookup_filter_ne _ _
    · rw [engine_compute_of_get_none computeCore (by rw [hget])]

/-- C3, witness: a concrete miss-then-hit round trip on an empty cache at
times 0 and 5 minutes (within the 10-minute TTL). -/
theorem cache_roundtrip_witness :
    (engine_generate_insights (fun _ _ => [7])
        (engine_generate_insights (fun _ _ => [7]) ([] : CacheState ℕ)
          (some [2023]) (some ["Healthcare"]) 0).2
        (some [2023]) (some ["Healthcare"]) 5).1 =
      (engine_generate_insights (fun _ _ => [7]) ([] : CacheState ℕ)
        (some [2023]) (some ["Healthcare"]) 0).1 :=
  (cache_roundtrip (fun _ _ => [7]) [] (some [2023]) (some ["Healthcare"]) 0 5
    (Or.inl (by simp [cache_get]))
    (by norm_num) (by norm_num [ttl_minutes])).1

/-- The two-record Healthcare scenario of the specification:
adoption 0.5 in 2022 and 0.8 in 2023. -/
def hcRecords : List GenAIAdoptionRecord :=
  [⟨"Healthcare", 2022, 1/2, 10, 50⟩, ⟨"Healthcare", 2023, 4/5, 15, 80⟩]

theorem hc_filters : apply_filters (·.year) (·.industry) hcRecords none none = hcRecords := by
  simp [apply_filters, keepYears, keepIndustries]

theorem hc_industries : growthIndustries hcRecords = ["Healthcare"] := by
  simp [growthIndustries, firstAppearance, hcRecords]

theorem hc_years : sortedYears hcRecords "Healthcare" = [2022, 2023] := by
  simp [sortedYears, hcRecords, sortAsc, insertAsc]

theorem hc_rates_2022 : ratesFor hcRecords "Healthcare" 2022 = [1/2] := by
  simp [ratesFor, hcRecords]

theorem hc_rates_2023 : ratesFor hcRecords "Healthcare" 2023 = [4/5] := by
  simp [ratesFor, hcRecords]

theorem hc_mean_2022 : meanQ (ratesFor hcRecords "Healthcare" 2022) = 1/2 := by
  rw [hc_rates_2022]
  simp [meanQ]

theorem hc_mean_2023 : meanQ (ratesFor hcRecords "Healthcare" 2023) = 4/5 := by
  rw [hc_rates_2023]
  simp [meanQ]

theorem hc_growthRates : growthRates hcRecords "Healthcare" = [3/5] := by
  simp only [growthRates]
  rw [hc_years]
  simp only [List.tail_cons, List.zip_cons_cons, List.zip_nil_right, List.filterMap_cons,
    List.filterMap_nil]
  rw [hc_mean_2022, hc_mean_2023]
  rw [if_pos (by norm_num : (0:ℚ) < 1/2)]
  norm_num

theorem hc_industryGrowthRates : industryGrowthRates hcRecords = [("Healthcare", 3/5)] := by
  simp only [industryGrowthRates]
  rw [hc_industries]
  simp only [List.filterMap_cons, List.filterMap_nil]
  rw [hc_years, hc_growthRates]
  norm_num [meanQ]

theorem hc_growth_insights : generate_growth_insights hcRecords none none =
    [⟨"growth_trends", "Healthcare", 3/5, 2/5⟩] := by
  simp only [generate_growth_insights]
  rw [if_neg (by simp [hcRecords])]
  rw [hc_filters, hc_industryGrowthRates]
  simp only [pyMaxBy, List.foldl_nil]
  rw [if_pos (by norm_num : (0.1:ℚ) < ("Healthcare", (3:ℚ)/5).2)]
  rw [hc_years]
  norm_num [min_eq_right]

theorem generate_growth_of_max_none {records : List GenAIAdoptionRecord}
    {years : Option (List ℤ)} {industries : Option (List String)}
    (hM : pyMaxBy (industryGrowthRates
      (apply_filters (·.year) (·.industry) records years industries)) = none) :
    generate_growth_insights records years industries = [] := by
  by_cases hrec : records.isEmpty
  · simp only [generate_growth_insights]
    rw [if_pos hrec]
  · simp only [generate_growth_insights]
    rw [if_neg hrec, hM]

theorem generate_growth_of_max_some {records : List GenAIAdoptionRecord}
    {years : Option (List ℤ)} {industries : Option (List String)}
    {best : String × ℚ}
    (hM : pyMaxBy (industryGrowthRates
      (apply_filters (·.year) (·.industry) records years industries)) = some best) :
    ((1:ℚ)/10 < best.2 →
      generate_growth_insights records years industries =
        [⟨"growth_trends", best.1, best.2,
          min 0.9 (((sortedYears
            (apply_filters (·.year) (·.industry) records years industries)
            best.1).length : ℚ) / 5)⟩]) ∧
    (best.2 ≤ (1:ℚ)/10 → generate_growth_insights records years industries = []) := by
  have hrec : records ≠ [] := by
    intro h
    subst h
    have hnone : pyMaxBy (industryGrowthRates
        (apply_filters (·.year) (·.industry) ([] : List GenAIAdoptionRecord)
          years industries)) = none := rfl
    rw [hnone] at hM
    exact Option.noConfusion hM
  constructor
  · intro hgt
    simp only [generate_growth_insights]
    rw [if_neg (by simp [hrec]), hM]
    dsimp only
    rw [if_pos (by norm_num at hgt ⊢; exact hgt)]
  · intro hle
    simp only [generate_growth_insights]
    rw [if_neg (by simp [hrec]), hM]
    dsimp only
    rw [if_neg (by rw [not_lt]; norm_num at hle ⊢; exact hle)]

/-- C8: the growth-trend generator emits, for the two Healthcare records
(2022: 0.5, 2023: 0.8), exactly one `growth_trends` insight with growth
`(0.8 - 0.5)/0.5 = 0.6` and confidence `min(0.9, 2/5)`; and in general an
emitted insight carries the maximal per-industry average year-over-year
growth of the per-year mean adoption rate over the filtered records,
exceeds the 10% gate, and has confidence
`min(0.9, distinct_year_count / 5)`. -/
theorem growth_insights_correct :
    (generate_growth_insights hcRecords none none =
      [⟨"growth_trends", "Healthcare", 3/5, 2/5⟩]) ∧
    ((3:ℚ)/5 = (4/5 - 1/2) / (1/2)) ∧
    (∀ (records : List GenAIAdoptionRecord) (years : Option (List ℤ))
        (industries : Option (List String)) (ins : GrowthInsight),
      ins ∈ generate_growth_insights records years industries →
      ins.category = "growth_trends" ∧
      (1:ℚ)/10 < ins.growth_rate ∧
      (ins.industry, ins.growth_rate) ∈
        industryGrowthRates (apply_filters (·.year) (·.industry) records years industries) ∧
      (∀ q ∈ industryGrowthRates
          (apply_filters (·.year) (·.industry) records years industries),
        q.2 ≤ ins.growth_rate) ∧
      ins.confidence = min 0.9
        (((sortedYears (apply_filters (·.year) (·.industry) records years industries)
            ins.industry).length : ℚ) / 5)) ∧
    (∀ (records : List GenAIAdoptionRecord) (years : Option (List ℤ))
        (industries : Option (List String)),
      pyMaxBy (industryGrowthRates
        (apply_filters (·.year) (·.industry) records years industries)) = none →
      generate_growth_insights records years industries = []) ∧
    (∀ (records : List GenAIAdoptionRecord) (years : Option (List ℤ))
        (industries : Option (List String)) (best : String × ℚ),
      pyMaxBy (industryGrowthRates
        (apply_filters (·.year) (·.industry) records years industries)) = some best →
      ((1:ℚ)/10 < best.2 →
        generate_growth_insights records years industries =
          [⟨"growth_trends", best.1, best.2,
            min 0.9 (((sortedYears
              (apply_filters (·.year) (·.industry) records years industries)
              best.1).length : ℚ) / 5)⟩]) ∧
      (best.2 ≤ (1:ℚ)/10 →
        generate_growth_insights records years industries = [])) :=
  ⟨hc_growth_insights, by norm_num,
    fun _ _ _ _ hins => generate_growth_mem_elim hins,
    fun _ _ _ hM => generate_growth_of_max_none hM,
    fun _ _ _ _ hM => generate_growth_of_max_some hM⟩

/-- The two-record investment scenario of the specification: industry A
invests 10 for 5 use cases, industry B invests 2 for 2 use cases. -/
def invRecords : List GenAIAdoptionRecord :=
  [⟨"A", 2023, 1/2, 5, 10⟩, ⟨"B", 2023, 1/2, 2, 2⟩]

theorem inv_pairs : investmentPairs invRecords = [("A", 2), ("B", 1)] := by
  simp [investmentPairs, invRecords]
  norm_num

theorem inv_avg : industryAvgEfficiency [("A", (2:ℚ)), ("B", 1)] = [("A", 2), ("B", 1)] := by
  simp [industryAvgEfficiency, firstAppearance, meanQ]

theorem inv_insights_eval : generate_investment_insights invRecords =
    [⟨"investment_analysis", "B", 1, 1/8, 1⟩] := by
  simp only [generate_investment_insights]
  rw [if_neg (by simp [invRecords])]
  rw [inv_pairs, inv_avg]
  simp only [pyMinBy, List.foldl_cons, List.foldl_nil]
  rw [if_pos (by norm_num : (("B", (1:ℚ)).2 < ("A", (2:ℚ)).2))]
  have hfil : List.filter (fun p => p.1 == "B") [("A", (2:ℚ)), ("B", 1)] = [("B", 1)] :=
    rfl
  rw [hfil]
  norm_num [min_def]

/-- Soundness of the investment generator: whenever some record has a
positive use-case count, exactly one insight is emitted; it has category
`investment_analysis`, carries the minimal per-industry average
`investment_millions / use_cases_count`, and confidence
`min(0.85, sample_count / 8)`. -/
theorem generate_investment_mem (records : List GenAIAdoptionRecord)
    (hex : ∃ r ∈ records, 0 < r.use_cases_count) :
    ∃ ins : InvestmentInsight,
      generate_investment_insights records = [ins] ∧
      ins.category = "investment_analysis" ∧
      (ins.industry, ins.efficiency_ratio) ∈
        industryAvgEfficiency (investmentPairs records) ∧
      (∀ q ∈ industryAvgEfficiency (investmentPairs records),
        ins.efficiency_ratio ≤ q.2) ∧
      ins.confidence = min 0.85 ((ins.sample_size : ℚ) / 8) := by
  obtain ⟨r, hr, hpos⟩ := hex
  have hrecne : records ≠ [] := by
    intro h
    rw [h] at hr
    simp at hr
  have hpair : (r.industry, r.investment_millions / (r.use_cases_count : ℚ)) ∈
      investmentPairs records := by
    simp only [investmentPairs, List.mem_filterMap]
    exact ⟨r, hr, by rw [if_pos hpos]⟩
  have hfa : r.industry ∈ firstAppearance ((investmentPairs records).map (·.1)) := by
    apply mem_firstAppearance
    exact List.mem_map_of_mem _ hpair
  have havg_ne : industryAvgEfficiency (investmentPairs records) ≠ [] := by
    simp only [industryAvgEfficiency]
    intro hc
    rw [List.map_eq_nil_iff] at hc
    rw [hc] at hfa
    simp at hfa
  obtain ⟨best, hbest⟩ : ∃ b, pyMinBy (industryAvgEfficiency (investmentPairs records)) = some b := by
    rcases hM : industryAvgEfficiency (investmentPairs records) with _ | ⟨a, t⟩
    · exact absurd hM havg_ne
    · exact ⟨_, rfl⟩
  have hspec := pyMinBy_spec hbest
  set n := (((investmentPairs records).filter (fun p => p.1 == best.1)).map (·.2)).length
    with hn
  refine ⟨⟨"investment_analysis", best.1, best.2, min 0.85 ((n : ℚ) / 8), n⟩,
    ?_, rfl, ?_, ?_, rfl⟩
  · simp only [generate_investment_insights]
    rw [if_neg (by simp [hrecne]), hbest, hn]
  · simpa using hspec.1
  · intro q hq
    exact hspec.2 q hq

/-- C9: the investment-efficiency generator selects industry B (efficiency
1.0 vs 2.0) with confidence `min(0.85, 1/8) = 0.125` on the two-record
scenario; and in general, whenever some record has `use_cases_count > 0`,
it emits exactly one `investment_analysis` insight carrying the minimal
per-industry average cost per use case, with confidence
`min(0.85, sample_count / 8)`. -/
theorem investment_insights_correct :
    (generate_investment_insights invRecords =
      [⟨"investment_analysis", "B", 1, 1/8, 1⟩]) ∧
    (min (0.85:ℚ) (1/8) = 1/8 ∧ (1:ℚ)/8 = 0.125) ∧
    (∀ records : List GenAIAdoptionRecord,
      (∃ r ∈ records, 0 < r.use_cases_count) →
      ∃ ins : InvestmentInsight,
        generate_investment_insights records = [ins] ∧
        ins.category = "investment_analysis" ∧
        (ins.industry, ins.efficiency_ratio) ∈
          industryAvgEfficiency (investmentPairs records) ∧
        (∀ q ∈ industryAvgEfficiency (investmentPairs records),
          ins.efficiency_ratio ≤ q.2) ∧
        ins.confidence = min 0.85 ((ins.sample_size : ℚ) / 8)) :=
  ⟨inv_insights_eval, ⟨by rw [min_eq_right]; norm_num, by norm_num⟩,
    fun records hex => generate_investment_mem records hex⟩

theorem growthRates_mem_elim {records : List GenAIAdoptionRecord} {ind : String}
    {g : ℚ} (hg : g ∈ growthRates records ind) :
    ∃ py cy,
      (py, cy) ∈ (sortedYears records ind).zip (sortedYears records ind).tail ∧
      0 < meanQ (ratesFor records ind py) ∧
      g = (meanQ (ratesFor records ind cy) - meanQ (ratesFor records ind py)) /
          meanQ (ratesFor records ind py) := by
  simp only [growthRates, List.mem_filterMap] at hg
  obtain ⟨pc, hpc, hfn⟩ := hg
  by_cases hpos : 0 < meanQ (ratesFor records ind pc.1)
  · rw [if_pos hpos] at hfn
    refine ⟨pc.1, pc.2, ?_, hpos, ?_⟩
    · simpa using hpc
    · exact (Option.some.injEq _ _ ▸ hfn).symm
  · rw [if_neg hpos] at hfn
    exact absurd hfn (by simp)

theorem growthRates_nil_of_zero {records : List GenAIAdoptionRecord} {ind : String}
    (h : ∀ pc ∈ (sortedYears records ind).zip (sortedYears records ind).tail,
      meanQ (ratesFor records ind pc.1) = 0) :
    growthRates records ind = [] := by
  simp only [growthRates]
  rw [List.filterMap_eq_nil_iff]
  intro pc hpc
  rw [h pc hpc]
  simp

theorem industryGrowthRates_fst_ne {records : List GenAIAdoptionRecord} {ind : String}
    (hnil : growthRates records ind = []) :
    ∀ e ∈ industryGrowthRates records, e.1 ≠ ind := by
  intro e he
  simp only [industryGrowthRates, List.mem_filterMap] at he
  obtain ⟨i, _, hfn⟩ := he
  by_cases h2 : (sortedYears records i).length < 2
  · rw [if_pos h2] at hfn
    simp at hfn
  · rw [if_neg h2] at hfn
    by_cases hemp : (growthRates records i).isEmpty
    · rw [if_pos hemp] at hfn
      simp at hfn
    · rw [if_neg hemp] at hfn
      have he1 : e.1 = i := by
        have := (Option.some.injEq _ _ ▸ hfn)
        rw [← this]
      intro hc
      apply hemp
      rw [← he1, hc, hnil]
      rfl

/-- C10: the growth computation never divides by a zero previous-year
mean: every produced growth rate comes from a consecutive-year pair whose
previous-year mean adoption is strictly positive; an industry all of whose
consecutive-year pairs have zero previous-year mean contributes no growth
rate, never enters the growth table, and can never be the emitted
insight's industry. -/
theorem growth_no_division_by_zero :
    (∀ (records : List GenAIAdoptionRecord) (ind : String) (g : ℚ),
      g ∈ growthRates records ind →
      ∃ py cy,
        (py, cy) ∈ (sortedYears records ind).zip (sortedYears records ind).tail ∧
        0 < meanQ (ratesFor records ind py) ∧
        g = (meanQ (ratesFor records ind cy) - meanQ (ratesFor records ind py)) /
            meanQ (ratesFor records ind py)) ∧
    (∀ (records : List GenAIAdoptionRecord) (ind : String),
      (∀ pc ∈ (sortedYears records ind).zip (sortedYears records ind).tail,
        meanQ (ratesFor records ind pc.1) = 0) →
      growthRates records ind = [] ∧
      ∀ e ∈ industryGrowthRates records, e.1 ≠ ind) ∧
    (∀ (all_records : List GenAIAdoptionRecord) (years : Option (List ℤ))
        (industries : Option (List String)) (ins : GrowthInsight) (ind : String),
      ins ∈ generate_growth_insights all_records years industries →
      (∀ pc ∈ (sortedYears (apply_filters (·.year) (·.industry) all_records years industries)
            ind).zip
          (sortedYears (apply_filters (·.year) (·.industry) all_records years industries)
            ind).tail,
        meanQ (ratesFor (apply_filters (·.year) (·.industry) all_records years industries)
          ind pc.1) = 0) →
      ins.industry ≠ ind) := by
  refine ⟨fun _ _ _ hg => growthRates_mem_elim hg,
    fun records ind h =>
      ⟨growthRates_nil_of_zero h, industryGrowthRates_fst_ne (growthRates_nil_of_zero h)⟩,
    ?_⟩
  intro all_records years industries ins ind hins hz
  have hmem := (generate_growth_mem_elim hins).2.2.1
  have hnil := growthRates_nil_of_zero hz
  exact industryGrowthRates_fst_ne hnil _ hmem

/-- C10, witness: the guard is realizable on the Healthcare example: its
single growth rate 0.6 is produced by the pair (2022, 2023) whose
previous-year mean 0.5 is positive. -/
theorem growth_no_division_by_zero_witness :
    ∃ py cy,
      (py, cy) ∈ (sortedYears hcRecords "Healthcare").zip
        (sortedYears hcRecords "Healthcare").tail ∧
      0 < meanQ (ratesFor hcRecords "Healthcare" py) ∧
      (3:ℚ)/5 = (meanQ (ratesFor hcRecords "Healthcare" cy) -
          meanQ (ratesFor hcRecords "Healthcare" py)) /
        meanQ (ratesFor hcRecords "Healthcare" py) :=
  growth_no_division_by_zero.1 hcRecords "Healthcare" (3/5)
    (by rw [hc_growthRates]; simp)

end Pulse
